import Mathlib

/-!
Verification of the retrieval-enhancement engine
(`src/services/advanced_retrieval.py`, class `AdvancedRetrieval`).

The Python code is shallowly embedded: passages and queries are `String`s,
floating-point scores are modelled exactly as rationals (`ℚ`), Python lists
become `List`s, and the insertion-ordered Python `dict` used by the
multi-query strategy becomes an association list updated in place.
Python's `list.sort(reverse=True)` is a stable descending sort, modelled by
`sortDesc` (stable insertion sort).  `list(set(xs))` has unspecified order in
CPython; it is modelled by `dedupFirst` (first-occurrence deduplication) and
only membership / cardinality facts about it are used.  The regular
expressions of the source are modelled by explicit ASCII scanners
(`\w`, `\d`, `\s`, `[A-Z]`, `[a-z]` in their ASCII reading).
-/

attribute [local semireducible] Rat.mul Rat.inv Rat.add Rat.sub Rat.ofScientific

namespace AdvancedRetrieval

/-- ASCII model of Python's regex word character `\w`. -/
def isWordChar (c : Char) : Bool := c.isAlphanum || c = '_'

/-- Python's `str.lower()` (ASCII model, applied characterwise). -/
def pyLower (s : String) : String := String.mk (s.toList.map Char.toLower)

/-- ASCII model of Python's regex whitespace `\s` / `str.strip` characters. -/
def isPySpace (c : Char) : Bool :=
  c = ' ' || c = '\t' || c = '\n' || c = '\r' || c = '\x0b' || c = '\x0c'

/-- Maximal runs of word characters: `re.findall(r'\b\w+\b', ·)`.
`acc` holds the current (reversed) run of word characters. -/
def tokenizeAux : List Char → List Char → List (List Char)
  | [], acc => if acc = [] then [] else [acc.reverse]
  | c :: cs, acc =>
    if isWordChar c then tokenizeAux cs (c :: acc)
    else if acc = [] then tokenizeAux cs [] else acc.reverse :: tokenizeAux cs []

/-- `re.findall(r'\b\w+\b', text.lower())`. -/
def tokenize (text : String) : List String :=
  (tokenizeAux (pyLower text).toList []).map fun l => String.mk l

/-- Python's `needle in hay` on the underlying character lists:
`listIsPrefix` is the anchored check, `listContainsSub` the scan. -/
def listIsPrefix : List Char → List Char → Bool
  | [], _ => true
  | _ :: _, [] => false
  | p :: ps, c :: cs => p = c && listIsPrefix ps cs

def listContainsSub (needle : List Char) : List Char → Bool
  | [] => needle = []
  | c :: cs => listIsPrefix needle (c :: cs) || listContainsSub needle cs

/-- Python's substring test `needle in hay`. -/
def strContains (hay needle : String) : Bool :=
  listIsPrefix needle.toList hay.toList || listContainsSub needle.toList hay.toList

/-- Python's `hay.startswith(pre)`. -/
def strStartsWith (hay pre : String) : Bool := listIsPrefix pre.toList hay.toList

/-- Python's `str.replace(needle, repl)` for a nonempty `needle`: replace all
non-overlapping occurrences, scanning left to right.  `fuel` bounds the loop
steps; each step consumes at least one character, so the input length
suffices.  (CPython additionally interleaves `repl` around every character
when `needle` is empty; the engine only ever replaces nonempty literals, and
for an empty `needle` this model returns the input unchanged.) -/
def pyReplaceL (needle repl : List Char) : Nat → List Char → List Char
  | 0, s => s
  | _ + 1, [] => []
  | fuel + 1, c :: rest =>
    if !needle.isEmpty && listIsPrefix needle (c :: rest) then
      repl ++ pyReplaceL needle repl fuel ((c :: rest).drop needle.length)
    else
      c :: pyReplaceL needle repl fuel rest

def pyReplace (s needle repl : String) : String :=
  String.mk (pyReplaceL needle.toList repl.toList s.toList.length s.toList)

/-- Python's `str.strip()` (ASCII whitespace model). -/
def pyStrip (s : String) : String :=
  String.mk (((s.toList.dropWhile isPySpace).reverse.dropWhile isPySpace).reverse)

/-- First-occurrence deduplication, with an accumulator of the keys already
seen. -/
def dedupFirstAux (seen : List String) : List String → List String
  | [] => []
  | c :: cs =>
    if c ∈ seen then dedupFirstAux seen cs
    else c :: dedupFirstAux (c :: seen) cs

/-- First-occurrence deduplication: the model of CPython's `list(set(xs))`
(whose order is unspecified) and of the key order of an insertion-ordered
`dict` built by repeated assignment. -/
def dedupFirst (l : List String) : List String := dedupFirstAux [] l

/-- Python `dict` assignment `d[k] = v` on an insertion-ordered association
list: an existing key keeps its position, a new key is appended. -/
def dictInsert {α : Type} (k : String) (v : α) : List (String × α) → List (String × α)
  | [] => [(k, v)]
  | p :: rest => if p.1 = k then (k, v) :: rest else p :: dictInsert k v rest

/-- Head character is not a word character (or the text ended): the model of a
regex word boundary `\b` on the right of a match. -/
def boundaryAt : List Char → Bool
  | [] => true
  | d :: _ => !isWordChar d

/-- Greedy parse of `(?:\s+[A-Z][a-z]+)*`: returns the matched units (each
unit keeps its leading whitespace) and the rest of the input. -/
def matchTitleUnits : Nat → List Char → List (List Char) × List Char
  | 0, l => ([], l)
  | fuel + 1, l =>
    let ws := l.takeWhile isPySpace
    let rest1 := l.dropWhile isPySpace
    if ws = [] then ([], l)
    else
      match rest1 with
      | [] => ([], l)
      | c :: cs =>
        if c.isUpper then
          let lows := cs.takeWhile Char.isLower
          let rest2 := cs.dropWhile Char.isLower
          if lows = [] then ([], l)
          else
            let (units, rest3) := matchTitleUnits fuel rest2
            ((ws ++ c :: lows) :: units, rest3)
        else ([], l)

/-- One anchored attempt of `[A-Z][a-z]+(?:\s+[A-Z][a-z]+)*\b` (the leading
`\b` is checked by the caller).  If the trailing boundary fails after the
greedy unit parse, the regex backtracks by dropping the last unit (dropping
lowercase letters instead always leaves a word character adjacent, so only
whole units can be given back); with no unit left the attempt fails. -/
def matchTitle : List Char → Option (List Char × List Char)
  | [] => none
  | c :: cs =>
    if c.isUpper then
      let lows := cs.takeWhile Char.isLower
      let rest := cs.dropWhile Char.isLower
      if lows = [] then none
      else
        let (units, rest2) := matchTitleUnits cs.length rest
        if boundaryAt rest2 then some (c :: lows ++ units.flatten, rest2)
        else
          match units with
          | [] => none
          | _ :: _ => some (c :: lows ++ units.dropLast.flatten,
                            (units.getLast?.getD []) ++ rest2)
    else none

/-- Left-to-right non-overlapping scan for
`re.findall(r'\b[A-Z][a-z]+(?:\s+[A-Z][a-z]+)*\b', text)`.
`prevIsWord` tracks whether the previous character was a word character
(for the leading `\b`); `fuel` bounds the number of loop steps (each step
consumes at least one character, so `text.length + 1` steps suffice). -/
def scanTitle : Nat → Bool → List Char → List (List Char)
  | 0, _, _ => []
  | _ + 1, _, [] => []
  | fuel + 1, prevIsWord, c :: cs =>
    if !prevIsWord then
      match matchTitle (c :: cs) with
      | some (m, rest) => m :: scanTitle fuel true rest
      | none => scanTitle fuel (isWordChar c) cs
    else scanTitle fuel (isWordChar c) cs

/-- The measurement units of `_extract_semantic_concepts`, in the source's
alternation order. -/
def measUnits : List String := ["mm", "cm", "in", "kg", "lb", "V", "A", "W", "Hz"]

/-- One anchored attempt of `\d+\s*(?:mm|cm|in|kg|lb|V|A|W|Hz)`. -/
def matchMeas (l : List Char) : Option (List Char × List Char) :=
  let ds := l.takeWhile Char.isDigit
  if ds = [] then none
  else
    let r1 := l.dropWhile Char.isDigit
    let ws := r1.takeWhile isPySpace
    let r2 := r1.dropWhile isPySpace
    match measUnits.find? fun u => listIsPrefix u.toList r2 with
    | some u => some (ds ++ ws ++ u.toList, r2.drop u.toList.length)
    | none => none

/-- Left-to-right non-overlapping scan for
`re.findall(r'\d+\s*(?:mm|cm|in|kg|lb|V|A|W|Hz)', text)` (no boundaries). -/
def scanMeas : Nat → List Char → List (List Char)
  | 0, _ => []
  | _ + 1, [] => []
  | fuel + 1, c :: cs =>
    match matchMeas (c :: cs) with
    | some (m, rest) => m :: scanMeas fuel rest
    | none => scanMeas fuel cs

/-- The action-verb vocabulary of `_extract_semantic_concepts`, in the
source's alternation order (no word is a prefix of another, so at most one
alternative can match at a position). -/
def actionWords : List String :=
  ["install", "connect", "configure", "setup", "test", "check", "verify", "replace", "repair"]

/-- Left-to-right non-overlapping scan for
`re.findall(r'\b(?:install|connect|...|repair)\b', text)`. -/
def scanActions : Nat → Bool → List Char → List String
  | 0, _, _ => []
  | _ + 1, _, [] => []
  | fuel + 1, prevIsWord, c :: cs =>
    let skip := scanActions fuel (isWordChar c) cs
    if !prevIsWord then
      match actionWords.find? fun w => listIsPrefix w.toList (c :: cs) with
      | some w =>
        let rest := (c :: cs).drop w.toList.length
        if boundaryAt rest then w :: scanActions fuel true rest else skip
      | none => skip
    else skip

/-- Stable insertion step of a descending sort: `x` (earlier in the input)
goes before the first element whose key is `≤` its own, exactly the relative
order produced by Python's stable `list.sort(key=..., reverse=True)`. -/
def insertDesc {α : Type} (f : α → ℚ) (x : α) : List α → List α
  | [] => [x]
  | y :: ys => if f y ≤ f x then x :: y :: ys else y :: insertDesc f x ys

/-- Stable descending sort by key `f`: the model of
`list.sort(key=..., reverse=True)`. -/
def sortDesc {α : Type} (f : α → ℚ) : List α → List α
  | [] => []
  | x :: xs => insertDesc f x (sortDesc f xs)

/-- The stop-word list of `_extract_keywords`. -/
def stop_words : List String :=
  ["the", "a", "an", "and", "or", "but", "in", "on", "at", "to", "for", "of",
   "with", "by", "is", "are", "was", "were", "be", "been", "have", "has",
   "had", "do", "does", "did", "will", "would", "could", "should", "may",
   "might", "can", "this", "that", "these", "those"]

/-- `_extract_keywords`: tokenize, drop stop words and tokens of length ≤ 2,
deduplicate (`list(set(...))`). -/
def extract_keywords (text : String) : List String :=
  dedupFirst ((tokenize text).filter fun w =>
    !(decide (w ∈ stop_words)) && decide (2 < w.length))

/-- `_calculate_similarity_score`: Jaccard similarity of the two texts' word
sets, 0 when either set is empty. -/
def calculate_similarity_score (text1 text2 : String) : ℚ :=
  let words1 := (tokenize text1).toFinset
  let words2 := (tokenize text2).toFinset
  if words1 = ∅ ∨ words2 = ∅ then 0
  else ((words1 ∩ words2).card : ℚ) / ((words1 ∪ words2).card : ℚ)

/-- `_count_keyword_matches`: keywords occurring as substrings of the
lower-cased text. -/
def count_keyword_matches (text : String) (keywords : List String) : Nat :=
  (keywords.filter fun keyword => strContains (pyLower text) keyword).length

/-- `_calculate_hybrid_score`. -/
def calculate_hybrid_score (chunk query : String) (keywords : List String) : ℚ :=
  let keyword_matches := count_keyword_matches chunk keywords
  let keyword_score : ℚ :=
    if keywords.length ≠ 0 then (keyword_matches : ℚ) / (keywords.length : ℚ) else 0
  let semantic_score := calculate_similarity_score chunk query
  let length_penalty : ℚ :=
    if 100 ≤ chunk.length ∧ chunk.length ≤ 500 then 1 else 0.8
  keyword_score * 0.4 + semantic_score * 0.5 + length_penalty * 0.1

/-- `_calculate_relevance_score`. -/
def calculate_relevance_score (chunk query : String) : ℚ :=
  calculate_similarity_score chunk query

/-- Does the chunk match `re.search(r'\d+\.', chunk)`, i.e. contain a digit
immediately followed by a dot? -/
def hasDigitDot : List Char → Bool
  | c :: d :: rest => (c.isDigit && d = '.') || hasDigitDot (d :: rest)
  | _ => false

/-- Does the chunk match `re.search(r'[-â€¢*]', chunk)`?  The source's bullet
character class is mojibake-corrupted; as written it matches any of the five
characters `-`, `â`, `€`, `¢`, `*`. -/
def hasBullet (l : List Char) : Bool :=
  l.any fun c => c = '-' || c = 'â' || c = '€' || c = '¢' || c = '*'

/-- `_calculate_quality_score`. -/
def calculate_quality_score (chunk : String) : ℚ :=
  let length_score : ℚ := min ((chunk.length : ℚ) / 200) 1
  let structure_score : ℚ :=
    if hasDigitDot chunk.toList || hasBullet chunk.toList then 1 else 0.5
  let sentence_score : ℚ :=
    if (pyStrip chunk).toList.getLast? = some '.' ∨
       (pyStrip chunk).toList.getLast? = some '!' ∨
       (pyStrip chunk).toList.getLast? = some '?' then 1 else 0.5
  length_score * 0.4 + structure_score * 0.3 + sentence_score * 0.3

/-- A scored chunk of the hybrid strategy (`_hybrid_retrieval`'s per-chunk
dictionary). -/
structure HybridChunk where
  chunk : String
  score : ℚ
  index : Nat
  keywords_found : Nat
deriving DecidableEq

/-- A scored chunk of the rerank strategy. -/
structure RerankChunk where
  chunk : String
  score : ℚ
  relevance : ℚ
  quality : ℚ
  diversity : ℚ
  index : Nat
deriving DecidableEq

/-- A scored chunk of the semantic-filter strategy. -/
structure SemChunk where
  chunk : String
  semantic_overlap : ℚ
  concepts : List String
deriving DecidableEq

/-- A score entry of the multi-query strategy (`chunk_scores` dict value). -/
structure MQData where
  score : ℚ
  best_match : String
deriving DecidableEq

/-- `_calculate_diversity_score`: 1 with no prior chunks, else one minus the
average similarity with the chunks scored so far. -/
def calculate_diversity_score (chunk : String) (existing_chunks : List RerankChunk) : ℚ :=
  if existing_chunks = [] then 1
  else
    let similarities := existing_chunks.map fun existing =>
      calculate_similarity_score chunk existing.chunk
    1 - similarities.sum / (similarities.length : ℚ)

/-- `_generate_query_variations`: pattern-based rewrites, deduplicated by
`list(set(...))`. -/
def generate_query_variations (query : String) : List String :=
  let query_lower := pyLower query
  let variations := [query]
  let variations := variations ++
    (if strContains query_lower "how" then
      [pyReplace query "how" "what steps",
       pyReplace query "how" "procedure for",
       pyReplace query "how" "method to"]
     else [])
  let variations := variations ++
    (if strContains query_lower "error" || strContains query_lower "problem" ||
        strContains query_lower "issue" then
      [pyReplace query "error" "solution",
       pyReplace query "problem" "fix",
       pyReplace query "issue" "resolve"]
     else [])
  let variations := variations ++
    (if strStartsWith query_lower "what is" then
      [pyReplace query "what is" "define",
       pyReplace query "what is" "explain",
       pyReplace query "what is" "describe"]
     else [])
  dedupFirst variations

/-- `_extract_semantic_concepts`: title-case phrases of the original text,
measurements, action verbs of the lower-cased text, deduplicated. -/
def extract_semantic_concepts (text : String) : List String :=
  let tech_terms := (scanTitle (text.toList.length + 1) false text.toList).map
    fun l => String.mk l
  let measurements := (scanMeas (text.toList.length + 1) text.toList).map
    fun l => String.mk l
  let action_words := scanActions ((pyLower text).toList.length + 1) false (pyLower text).toList
  dedupFirst (tech_terms ++ measurements ++ action_words)

/-- `_calculate_concept_overlap`: Jaccard overlap of the two concept lists as
sets, 0 when either list is empty. -/
def calculate_concept_overlap (concepts1 concepts2 : List String) : ℚ :=
  if concepts1 = [] ∨ concepts2 = [] then 0
  else
    let set1 := concepts1.toFinset
    let set2 := concepts2.toFinset
    ((set1 ∩ set2).card : ℚ) / ((set1 ∪ set2).card : ℚ)

/-- `_calculate_keyword_coverage`: fraction of the query keywords occurring in
at least one selected chunk (`covered_keywords` is a set). -/
def calculate_keyword_coverage (chunks : List HybridChunk) (keywords : List String) : ℚ :=
  if keywords = [] then 0
  else
    let covered := dedupFirst (keywords.filter fun keyword =>
      chunks.any fun chunk_data => strContains (pyLower chunk_data.chunk) keyword)
    (covered.length : ℚ) / (keywords.length : ℚ)

/-- Round to the nearest integer, ties to even (the rounding of CPython's
float formatting, transposed to exact rationals). -/
def roundHalfEven (x : ℚ) : ℤ :=
  let fl := x.floor
  let fr := x - (fl : ℚ)
  if fr < 1 / 2 then fl
  else if 1 / 2 < fr then fl + 1
  else if fl % 2 = 0 then fl else fl + 1

/-- Two-digit zero-padded rendering of a value below 100. -/
def pad2 (n : Nat) : String := if n < 10 then "0" ++ toString n else toString n

/-- Model of Python's `f"{x:.2f}"` for the nonnegative scores of this engine.
(CPython rounds the IEEE double; scores are modelled exactly as rationals, so
this renders the rational to two decimal places instead.  No claim below
depends on the rendered digits.) -/
def fmt2 (q : ℚ) : String :=
  let n := roundHalfEven (q * 100)
  toString (n / 100) ++ "." ++ pad2 (n % 100).toNat

/-- The strategy-specific part of the returned dictionary. -/
inductive ExtraMetrics where
  | hybrid (average_score keyword_coverage : ℚ)
  | rerank (avg_relevance avg_quality avg_diversity : ℚ)
  | multiQuery (query_variations : List String) (variation_coverage : Nat)
  | semanticFilter (query_concepts : List String) (filtered_chunks : Nat)
      (avg_semantic_overlap : ℚ)
deriving DecidableEq

/-- The dictionary returned by `get_enhanced_context`: the common keys plus
the strategy-specific ones. -/
structure RResult where
  enhanced_context : String
  strategy : String
  chunks_analyzed : Nat
  top_chunks : Nat
  extra : ExtraMetrics
deriving DecidableEq

/-- `_combine_chunks_with_context` (hybrid rendering). -/
def combine_chunks_with_context (chunks : List HybridChunk) : String :=
  String.intercalate "\n\n" (chunks.enum.map fun p =>
    "[Section " ++ toString (p.1 + 1) ++ " - Relevance: " ++ fmt2 p.2.score ++
    ", Keywords: " ++ toString p.2.keywords_found ++ "]\n" ++ p.2.chunk)

/-- `_create_structured_context` (rerank rendering). -/
def create_structured_context (chunks : List RerankChunk) : String :=
  String.intercalate "\n\n" (chunks.enum.map fun p =>
    "[Section " ++ toString (p.1 + 1) ++ " - Relevance: " ++ fmt2 p.2.relevance ++
    ", Quality: " ++ fmt2 p.2.quality ++ "]\n" ++ p.2.chunk)

/-- `_create_context_with_variations` (multi-query rendering). -/
def create_context_with_variations (chunks : List (String × MQData)) : String :=
  String.intercalate "\n\n" (chunks.enum.map fun p =>
    "[Section " ++ toString (p.1 + 1) ++ " - Best Match: '" ++ p.2.2.best_match ++
    "', Score: " ++ fmt2 p.2.2.score ++ "]\n" ++ p.2.1)

/-- `_create_semantic_context` (semantic-filter rendering). -/
def create_semantic_context (chunks : List SemChunk) : String :=
  String.intercalate "\n\n" (chunks.enum.map fun p =>
    "[Section " ++ toString (p.1 + 1) ++ " - Semantic Overlap: " ++
    fmt2 p.2.semantic_overlap ++ ", Concepts: " ++
    String.intercalate ", " (p.2.concepts.take 5) ++ "]\n" ++ p.2.chunk)

/-- The scored-chunk list built by `_hybrid_retrieval`'s loop (in original
candidate order). -/
def hybrid_scored (query : String) (chunks : List String) : List HybridChunk :=
  let keywords := extract_keywords query
  chunks.enum.map fun p =>
    { chunk := p.2
      score := calculate_hybrid_score p.2 query keywords
      index := p.1
      keywords_found := count_keyword_matches p.2 keywords }

/-- `scored_chunks` after `sort(key=..., reverse=True)`. -/
def hybrid_sorted (query : String) (chunks : List String) : List HybridChunk :=
  sortDesc (fun x => x.score) (hybrid_scored query chunks)

/-- `scored_chunks[:min(5, len(scored_chunks))]`. -/
def hybrid_top (query : String) (chunks : List String) : List HybridChunk :=
  (hybrid_sorted query chunks).take (min 5 (hybrid_sorted query chunks).length)

/-- `_hybrid_retrieval`. -/
def hybrid_retrieval (query : String) (chunks : List String) : RResult :=
  let keywords := extract_keywords query
  let top_chunks := hybrid_top query chunks
  { enhanced_context := combine_chunks_with_context top_chunks
    strategy := "hybrid"
    chunks_analyzed := chunks.length
    top_chunks := top_chunks.length
    extra := .hybrid
      (if top_chunks = [] then 0
       else (top_chunks.map fun c => c.score).sum / (top_chunks.length : ℚ))
      (calculate_keyword_coverage top_chunks keywords) }

/-- The body of `_rerank_retrieval`'s loop: the scored entry for `chunk` at
loop index `i`, with diversity computed against the entries accumulated so
far. -/
def rerank_entry (query chunk : String) (acc : List RerankChunk) (i : Nat) : RerankChunk :=
  let relevance_score := calculate_relevance_score chunk query
  let quality_score := calculate_quality_score chunk
  let diversity_score := calculate_diversity_score chunk acc
  { chunk := chunk
    score := relevance_score * 0.5 + quality_score * 0.3 + diversity_score * 0.2
    relevance := relevance_score
    quality := quality_score
    diversity := diversity_score
    index := i }

/-- `_rerank_retrieval`'s loop: each chunk's diversity is computed against
`reranked_chunks` as accumulated so far, i.e. against all previously
processed candidates (whether or not they end up in the top list). -/
def rerank_scored_aux (query : String) (acc : List RerankChunk) (i : Nat) :
    List String → List RerankChunk
  | [] => acc
  | chunk :: rest =>
    rerank_scored_aux query (acc ++ [rerank_entry query chunk acc i]) (i + 1) rest

def rerank_scored (query : String) (chunks : List String) : List RerankChunk :=
  rerank_scored_aux query [] 0 chunks

def rerank_sorted (query : String) (chunks : List String) : List RerankChunk :=
  sortDesc (fun x => x.score) (rerank_scored query chunks)

def rerank_top (query : String) (chunks : List String) : List RerankChunk :=
  (rerank_sorted query chunks).take (min 4 (rerank_sorted query chunks).length)

/-- `_rerank_retrieval`. -/
def rerank_retrieval (query : String) (chunks : List String) : RResult :=
  let top_chunks := rerank_top query chunks
  { enhanced_context := create_structured_context top_chunks
    strategy := "rerank"
    chunks_analyzed := chunks.length
    top_chunks := top_chunks.length
    extra := .rerank
      (if top_chunks = [] then 0
       else (top_chunks.map fun c => c.relevance).sum / (top_chunks.length : ℚ))
      (if top_chunks = [] then 0
       else (top_chunks.map fun c => c.quality).sum / (top_chunks.length : ℚ))
      (if top_chunks = [] then 0
       else (top_chunks.map fun c => c.diversity).sum / (top_chunks.length : ℚ)) }

/-- The inner loop of `_multi_query_expansion`: the best (strictly improving)
similarity over the query variations, starting from score 0 and the original
query. -/
def best_variation_score (query chunk : String) (variations : List String) : MQData :=
  variations.foldl
    (fun acc variation =>
      let score := calculate_similarity_score chunk variation
      if acc.score < score then { score := score, best_match := variation } else acc)
    { score := 0, best_match := query }

/-- The `chunk_scores` dict of `_multi_query_expansion`, as an
insertion-ordered association list: a duplicated chunk overwrites its own
entry in place. -/
def mq_build (query : String) (chunks : List String) : List (String × MQData) :=
  let variations := generate_query_variations query
  chunks.foldl
    (fun m chunk => dictInsert chunk (best_variation_score query chunk variations) m) []

/-- `sorted(chunk_scores.items(), key=..., reverse=True)` (Python's `sorted`
is the same stable sort). -/
def mq_sorted (query : String) (chunks : List String) : List (String × MQData) :=
  sortDesc (fun p => p.2.score) (mq_build query chunks)

def mq_top (query : String) (chunks : List String) : List (String × MQData) :=
  (mq_sorted query chunks).take (min 5 (mq_sorted query chunks).length)

/-- `_multi_query_expansion`. -/
def multi_query_expansion (query : String) (chunks : List String) : RResult :=
  let query_variations := generate_query_variations query
  let top_chunks := mq_top query chunks
  { enhanced_context := create_context_with_variations top_chunks
    strategy := "multi_query"
    chunks_analyzed := chunks.length
    top_chunks := top_chunks.length
    extra := .multiQuery query_variations
      (dedupFirst (top_chunks.map fun c => c.2.best_match)).length }

/-- The filtered-chunk list of `_semantic_filtering` (in original candidate
order): only chunks whose concept overlap with the query strictly exceeds
0.3 are kept. -/
def sem_filtered (query : String) (chunks : List String) : List SemChunk :=
  let query_concepts := extract_semantic_concepts query
  chunks.filterMap fun chunk =>
    let chunk_concepts := extract_semantic_concepts chunk
    let semantic_overlap := calculate_concept_overlap query_concepts chunk_concepts
    if 3 / 10 < semantic_overlap then
      some { chunk := chunk
             semantic_overlap := semantic_overlap
             concepts := chunk_concepts }
    else none

def sem_sorted (query : String) (chunks : List String) : List SemChunk :=
  sortDesc (fun x => x.semantic_overlap) (sem_filtered query chunks)

def sem_top (query : String) (chunks : List String) : List SemChunk :=
  (sem_sorted query chunks).take (min 4 (sem_sorted query chunks).length)

/-- `_semantic_filtering`. -/
def semantic_filtering (query : String) (chunks : List String) : RResult :=
  let query_concepts := extract_semantic_concepts query
  let filtered_chunks := sem_filtered query chunks
  let top_chunks := sem_top query chunks
  { enhanced_context := create_semantic_context top_chunks
    strategy := "semantic_filter"
    chunks_analyzed := chunks.length
    top_chunks := top_chunks.length
    extra := .semanticFilter query_concepts filtered_chunks.length
      (if top_chunks = [] then 0
       else (top_chunks.map fun c => c.semantic_overlap).sum / (top_chunks.length : ℚ)) }

/-- The strategy table's key set. -/
def retrieval_strategy_names : List String :=
  ["hybrid", "rerank", "multi_query", "semantic_filter"]

/-- `get_enhanced_context`: an unknown strategy name falls back to
`"hybrid"`, then the named strategy runs.  (The Python parameter defaults to
`'hybrid'` when omitted, which coincides with calling it with `"hybrid"`.) -/
def get_enhanced_context (query : String) (chunks : List String) (strategy : String) :
    RResult :=
  let strategy := if strategy ∈ retrieval_strategy_names then strategy else "hybrid"
  if strategy = "hybrid" then hybrid_retrieval query chunks
  else if strategy = "rerank" then rerank_retrieval query chunks
  else if strategy = "multi_query" then multi_query_expansion query chunks
  else semantic_filtering query chunks

/-- All aggregate metrics of the strategy-specific part are zero (the
non-aggregate fields — the query variations and query concepts — are
unconstrained). -/
def extra_metrics_zero : ExtraMetrics → Prop
  | .hybrid average_score keyword_coverage => average_score = 0 ∧ keyword_coverage = 0
  | .rerank avg_relevance avg_quality avg_diversity =>
      avg_relevance = 0 ∧ avg_quality = 0 ∧ avg_diversity = 0
  | .multiQuery _ variation_coverage => variation_coverage = 0
  | .semanticFilter _ filtered_chunks avg_semantic_overlap =>
      filtered_chunks = 0 ∧ avg_semantic_overlap = 0

section SortFacts

variable {α : Type} (f : α → ℚ)

theorem mem_insertDesc (x : α) (l : List α) (a : α) :
    a ∈ insertDesc f x l ↔ a = x ∨ a ∈ l := by
  induction l with
  | nil => simp [insertDesc]
  | cons y ys ih =>
    simp only [insertDesc]
    split
    · simp
    · simp only [List.mem_cons, ih]
      tauto

theorem length_insertDesc (x : α) (l : List α) :
    (insertDesc f x l).length = l.length + 1 := by
  induction l with
  | nil => simp [insertDesc]
  | cons y ys ih =>
    simp only [insertDesc]
    split
    · simp
    · simp [ih]

theorem mem_sortDesc (l : List α) (a : α) : a ∈ sortDesc f l ↔ a ∈ l := by
  induction l with
  | nil => simp [sortDesc]
  | cons x xs ih => simp [sortDesc, mem_insertDesc, ih]

theorem length_sortDesc (l : List α) : (sortDesc f l).length = l.length := by
  induction l with
  | nil => simp [sortDesc]
  | cons x xs ih => simp [sortDesc, length_insertDesc, ih]

theorem filter_insertDesc (v : ℚ) (x : α) (l : List α) :
    (insertDesc f x l).filter (fun a => decide (f a = v)) =
      if f x = v then x :: l.filter (fun a => decide (f a = v))
      else l.filter (fun a => decide (f a = v)) := by
  induction l with
  | nil => by_cases hx : f x = v <;> simp [insertDesc, List.filter_cons, hx]
  | cons y ys ih =>
    simp only [insertDesc]
    split
    · rename_i hle
      by_cases hx : f x = v <;> simp [List.filter_cons, hx]
    · rename_i hnle
      have hlt : f x < f y := lt_of_not_le hnle
      by_cases hx : f x = v <;> by_cases hy : f y = v
      · exact absurd (hx.trans hy.symm) (ne_of_lt hlt)
      · simp [List.filter_cons, hx, hy, ih]
      · simp [List.filter_cons, hx, hy, ih]
      · simp [List.filter_cons, hx, hy, ih]

/-- Stability of the descending sort: the elements carrying any fixed key
value appear in the output in exactly their input order. -/
theorem filter_sortDesc (v : ℚ) (l : List α) :
    (sortDesc f l).filter (fun a => decide (f a = v)) =
      l.filter (fun a => decide (f a = v)) := by
  induction l with
  | nil => simp [sortDesc]
  | cons x xs ih =>
    simp only [sortDesc, filter_insertDesc]
    by_cases hx : f x = v <;> simp [List.filter_cons, hx, ih]

theorem pairwise_insertDesc (R : α → α → Prop) (x : α) (l : List α)
    (hl : l.Pairwise fun a b => f b ≤ f a ∧ (f a = f b → R a b))
    (hx : ∀ y ∈ l, R x y) :
    (insertDesc f x l).Pairwise fun a b => f b ≤ f a ∧ (f a = f b → R a b) := by
  induction l with
  | nil => simp [insertDesc]
  | cons y ys ih =>
    rw [List.pairwise_cons] at hl
    obtain ⟨hy, hys⟩ := hl
    simp only [insertDesc]
    split
    · rename_i hle
      refine List.Pairwise.cons ?_ (List.Pairwise.cons hy hys)
      intro z hz
      rcases List.mem_cons.mp hz with rfl | hz
      · exact ⟨hle, fun _ => hx z (List.mem_cons_self _ _)⟩
      · exact ⟨le_trans (hy z hz).1 hle, fun _ => hx z (List.mem_cons_of_mem _ hz)⟩
    · rename_i hnle
      have hlt : f x < f y := lt_of_not_le hnle
      refine List.Pairwise.cons ?_ (ih hys fun z hz => hx z (List.mem_cons_of_mem _ hz))
      intro z hz
      rcases (mem_insertDesc f x ys z).mp hz with rfl | hz
      · exact ⟨le_of_lt hlt, fun h => absurd h.symm (ne_of_lt hlt)⟩
      · exact hy z hz

/-- Sortedness plus stability of the descending sort, as a pairwise
invariant: in the output, keys are non-increasing, and any relation that held
pairwise on the input still holds between equal-key elements. -/
theorem pairwise_sortDesc (R : α → α → Prop) (l : List α) (hl : l.Pairwise R) :
    (sortDesc f l).Pairwise fun a b => f b ≤ f a ∧ (f a = f b → R a b) := by
  induction l with
  | nil => simp [sortDesc]
  | cons x xs ih =>
    rw [List.pairwise_cons] at hl
    exact pairwise_insertDesc f R x _ (ih hl.2)
      fun y hy => hl.1 y ((mem_sortDesc f xs y).mp hy)

end SortFacts

section DedupFacts

theorem mem_dedupFirstAux (a : String) :
    ∀ (l seen : List String), a ∈ dedupFirstAux seen l ↔ a ∈ l ∧ a ∉ seen := by
  intro l
  induction l with
  | nil => intro seen; simp [dedupFirstAux]
  | cons c cs ih =>
    intro seen
    simp only [dedupFirstAux]
    by_cases hc : c ∈ seen
    · rw [if_pos hc, ih seen]
      by_cases hac : a = c <;> simp [hac, hc]
    · rw [if_neg hc]
      simp only [List.mem_cons, ih (c :: seen)]
      by_cases hac : a = c <;> simp [hac, hc]

theorem mem_dedupFirst (l : List String) (a : String) : a ∈ dedupFirst l ↔ a ∈ l := by
  rw [dedupFirst, mem_dedupFirstAux]
  simp

theorem nodup_dedupFirstAux : ∀ (l seen : List String), (dedupFirstAux seen l).Nodup := by
  intro l
  induction l with
  | nil => intro seen; simp [dedupFirstAux]
  | cons c cs ih =>
    intro seen
    simp only [dedupFirstAux]
    by_cases hc : c ∈ seen
    · rw [if_pos hc]; exact ih seen
    · rw [if_neg hc]
      refine List.Pairwise.cons ?_ (ih (c :: seen))
      intro b hb hbc
      have := ((mem_dedupFirstAux b cs (c :: seen)).mp hb).2
      exact this (by simp [hbc])

theorem nodup_dedupFirst (l : List String) : (dedupFirst l).Nodup :=
  nodup_dedupFirstAux l []

theorem dedupFirstAux_eq_self :
    ∀ (l seen : List String), l.Nodup → (∀ a ∈ l, a ∉ seen) → dedupFirstAux seen l = l := by
  intro l
  induction l with
  | nil => intro seen _ _; rfl
  | cons c cs ih =>
    intro seen hnd hs
    rw [List.nodup_cons] at hnd
    simp only [dedupFirstAux]
    rw [if_neg (hs c (List.mem_cons_self _ _))]
    congr 1
    refine ih (c :: seen) hnd.2 ?_
    intro a ha
    simp only [List.mem_cons]
    rintro (rfl | h)
    · exact hnd.1 ha
    · exact hs a (List.mem_cons_of_mem _ ha) h

theorem dedupFirst_idem (l : List String) :
    dedupFirst (dedupFirst l) = dedupFirst l :=
  dedupFirstAux_eq_self _ [] (nodup_dedupFirst l) (by simp)

/-- The `seen` accumulator only matters through membership. -/
theorem dedupFirstAux_congr_seen :
    ∀ (l s₁ s₂ : List String), (∀ a, a ∈ s₁ ↔ a ∈ s₂) →
      dedupFirstAux s₁ l = dedupFirstAux s₂ l := by
  intro l
  induction l with
  | nil => intro s₁ s₂ _; rfl
  | cons c cs ih =>
    intro s₁ s₂ h
    simp only [dedupFirstAux]
    by_cases hc : c ∈ s₁
    · rw [if_pos hc, if_pos ((h c).mp hc)]
      exact ih s₁ s₂ h
    · rw [if_neg hc, if_neg (fun hc2 => hc ((h c).mpr hc2))]
      congr 1
      refine ih (c :: s₁) (c :: s₂) ?_
      intro a
      simp [h a]

end DedupFacts

section DictFacts

variable {α : Type} (f : String → α)

theorem dictInsert_map_pair (c : String) (ks : List String) :
    dictInsert c (f c) (ks.map fun k => (k, f k)) =
      (if c ∈ ks then ks else ks ++ [c]).map fun k => (k, f k) := by
  induction ks with
  | nil => simp [dictInsert]
  | cons k ks' ih =>
    simp only [List.map_cons, dictInsert]
    by_cases hkc : k = c
    · simp [hkc]
    · have : ¬ (c = k) := fun h => hkc h.symm
      by_cases hc : c ∈ ks' <;>
        simp [hkc, hc, List.mem_cons, this, ih]

theorem foldl_dictInsert_eq :
    ∀ (l ks : List String),
      l.foldl (fun m c => dictInsert c (f c) m) (ks.map fun k => (k, f k)) =
        (ks ++ dedupFirstAux ks l).map fun k => (k, f k) := by
  intro l
  induction l with
  | nil => intro ks; simp [dedupFirstAux]
  | cons c cs ih =>
    intro ks
    simp only [List.foldl_cons, dictInsert_map_pair, dedupFirstAux]
    by_cases hc : c ∈ ks
    · rw [if_pos hc, if_pos hc, ih ks]
    · rw [if_neg hc, if_neg hc, ih (ks ++ [c]),
        dedupFirstAux_congr_seen cs (ks ++ [c]) (c :: ks) (by intro a; simp; tauto)]
      simp

theorem mq_build_eq (query : String) (chunks : List String) :
    mq_build query chunks =
      (dedupFirst chunks).map fun k =>
        (k, best_variation_score query k (generate_query_variations query)) := by
  have h := foldl_dictInsert_eq
    (fun k => best_variation_score query k (generate_query_variations query)) chunks []
  simp only [List.map_nil, List.nil_append] at h
  exact h

end DictFacts

section EnumFacts

theorem le_fst_of_mem_enumFrom {α : Type} :
    ∀ (l : List α) (n : Nat) (p : Nat × α), p ∈ l.enumFrom n → n ≤ p.1
  | [], _, _, h => by simp [List.enumFrom] at h
  | _ :: xs, n, p, h => by
    rw [List.enumFrom] at h
    rcases List.mem_cons.mp h with rfl | h
    · exact le_refl _
    · exact le_trans (Nat.le_succ n) (le_fst_of_mem_enumFrom xs (n + 1) p h)

theorem pairwise_fst_lt_enumFrom {α : Type} :
    ∀ (l : List α) (n : Nat), (l.enumFrom n).Pairwise fun a b => a.1 < b.1
  | [], _ => by simp [List.enumFrom]
  | x :: xs, n => by
    rw [List.enumFrom]
    refine List.Pairwise.cons ?_ (pairwise_fst_lt_enumFrom xs (n + 1))
    intro p hp
    exact lt_of_lt_of_le (Nat.lt_succ_self n) (le_fst_of_mem_enumFrom xs (n + 1) p hp)

theorem pairwise_fst_lt_enum {α : Type} (l : List α) :
    l.enum.Pairwise fun a b => a.1 < b.1 :=
  pairwise_fst_lt_enumFrom l 0

end EnumFacts

section StrategyFacts

/-- Truncating to `min k length` elements keeps exactly `min k length`. -/
theorem take_min_length {α : Type} (l : List α) (k : Nat) :
    (l.take (min k l.length)).length = min k l.length := by
  rw [List.length_take]
  exact Nat.min_eq_left (Nat.min_le_right _ _)

theorem length_hybrid_sorted (query : String) (chunks : List String) :
    (hybrid_sorted query chunks).length = chunks.length := by
  rw [hybrid_sorted, length_sortDesc]
  simp [hybrid_scored]

theorem pairwise_index_hybrid_scored (query : String) (chunks : List String) :
    (hybrid_scored query chunks).Pairwise fun a b => a.index < b.index := by
  simp only [hybrid_scored]
  exact (pairwise_fst_lt_enum chunks).map _ fun a b h => h

theorem rerank_scored_aux_prefix (query : String) :
    ∀ (l : List String) (acc : List RerankChunk) (i : Nat),
      ∃ t, rerank_scored_aux query acc i l = acc ++ t := by
  intro l
  induction l with
  | nil => intro acc i; exact ⟨[], by simp [rerank_scored_aux]⟩
  | cons c cs ih =>
    intro acc i
    rw [rerank_scored_aux]
    obtain ⟨t, ht⟩ := ih (acc ++ [rerank_entry query c acc i]) (i + 1)
    exact ⟨rerank_entry query c acc i :: t, by rw [ht, List.append_assoc]; rfl⟩

theorem length_rerank_scored_aux (query : String) :
    ∀ (l : List String) (acc : List RerankChunk) (i : Nat),
      (rerank_scored_aux query acc i l).length = acc.length + l.length := by
  intro l
  induction l with
  | nil => intro acc i; simp [rerank_scored_aux]
  | cons c cs ih =>
    intro acc i
    rw [rerank_scored_aux, ih]
    simp
    omega

theorem length_rerank_sorted (query : String) (chunks : List String) :
    (rerank_sorted query chunks).length = chunks.length := by
  rw [rerank_sorted, length_sortDesc, rerank_scored, length_rerank_scored_aux]
  simp

theorem pairwise_index_rerank_scored_aux (query : String) :
    ∀ (l : List String) (acc : List RerankChunk) (i : Nat),
      (∀ e ∈ acc, e.index < i) →
      acc.Pairwise (fun a b => a.index < b.index) →
      (rerank_scored_aux query acc i l).Pairwise fun a b => a.index < b.index := by
  intro l
  induction l with
  | nil => intro acc i _ hp; rw [rerank_scored_aux]; exact hp
  | cons c cs ih =>
    intro acc i hlt hp
    rw [rerank_scored_aux]
    refine ih (acc ++ [rerank_entry query c acc i]) (i + 1) ?_ ?_
    · intro e he
      rcases List.mem_append.mp he with he | he
      · exact Nat.lt_trans (hlt e he) (Nat.lt_succ_self i)
      · rcases List.mem_singleton.mp he with rfl
        exact Nat.lt_succ_self i
    · rw [List.pairwise_append]
      refine ⟨hp, List.pairwise_singleton _ _, ?_⟩
      intro a ha b hb
      rcases List.mem_singleton.mp hb with rfl
      exact hlt a ha

theorem pairwise_index_rerank_scored (query : String) (chunks : List String) :
    (rerank_scored query chunks).Pairwise fun a b => a.index < b.index :=
  pairwise_index_rerank_scored_aux query chunks [] 0 (by simp) (List.Pairwise.nil)

theorem length_mq_sorted (query : String) (chunks : List String) :
    (mq_sorted query chunks).length = (dedupFirst chunks).length := by
  rw [mq_sorted, length_sortDesc, mq_build_eq]
  simp

theorem length_sem_sorted (query : String) (chunks : List String) :
    (sem_sorted query chunks).length = (sem_filtered query chunks).length := by
  rw [sem_sorted, length_sortDesc]

/-- Every entry of the filtered list of the semantic-filter strategy carries
its chunk's true concept overlap with the query, and that overlap strictly
exceeds the 0.3 threshold. -/
theorem mem_sem_filtered (query : String) (chunks : List String) (e : SemChunk)
    (he : e ∈ sem_filtered query chunks) :
    3 / 10 < e.semantic_overlap ∧
      e.semantic_overlap = calculate_concept_overlap (extract_semantic_concepts query)
        (extract_semantic_concepts e.chunk) := by
  simp only [sem_filtered] at he
  rcases List.mem_filterMap.mp he with ⟨c, _, hfc⟩
  by_cases h : (3 : ℚ) / 10 < calculate_concept_overlap (extract_semantic_concepts query)
      (extract_semantic_concepts c)
  · rw [if_pos h] at hfc
    cases Option.some.inj hfc
    exact ⟨h, rfl⟩
  · rw [if_neg h] at hfc
    exact absurd hfc (by simp)

/-- With no candidate chunks, the keyword coverage is zero whatever the
query's keywords are. -/
theorem keyword_coverage_nil (keywords : List String) :
    calculate_keyword_coverage [] keywords = 0 := by
  rw [calculate_keyword_coverage]
  split
  · rfl
  · have h : (keywords.filter fun keyword =>
        ([] : List HybridChunk).any fun chunk_data =>
          strContains (pyLower chunk_data.chunk) keyword) = [] := by
      simp
    rw [h]
    simp [dedupFirst, dedupFirstAux]

theorem hybrid_retrieval_nil (query : String) :
    (hybrid_retrieval query []).enhanced_context = "" ∧
      (hybrid_retrieval query []).top_chunks = 0 ∧
      extra_metrics_zero (hybrid_retrieval query []).extra :=
  ⟨rfl, rfl, rfl, keyword_coverage_nil _⟩

theorem rerank_retrieval_nil (query : String) :
    (rerank_retrieval query []).enhanced_context = "" ∧
      (rerank_retrieval query []).top_chunks = 0 ∧
      extra_metrics_zero (rerank_retrieval query []).extra :=
  ⟨rfl, rfl, rfl, rfl, rfl⟩

theorem multi_query_expansion_nil (query : String) :
    (multi_query_expansion query []).enhanced_context = "" ∧
      (multi_query_expansion query []).top_chunks = 0 ∧
      extra_metrics_zero (multi_query_expansion query []).extra :=
  ⟨rfl, rfl, rfl⟩

theorem semantic_filtering_nil (query : String) :
    (semantic_filtering query []).enhanced_context = "" ∧
      (semantic_filtering query []).top_chunks = 0 ∧
      extra_metrics_zero (semantic_filtering query []).extra :=
  ⟨rfl, rfl, rfl, rfl⟩

end StrategyFacts

section Claims

/-- Claim C1, counterexample: with the duplicated candidate list
`["a", "a"]`, the multi-query strategy reports `top_chunks = 1`, not
`min(5, 2) = 2` as the claim requires — the score dictionary collapses
duplicate passages before selection. -/
theorem claim_C1_counterexample :
    (get_enhanced_context "" ["a", "a"] "multi_query").top_chunks = 1 ∧
      min 5 (["a", "a"] : List String).length = 2 := by
  constructor
  · decide
  · decide

/-- Claim C1 as amended: every strategy selects exactly
`min(K, number of eligible candidates)` passages, reported as `top_chunks`
(K = 5 for hybrid and multi-query, K = 4 for rerank and semantic-filter),
where the eligible candidates are all supplied candidates for hybrid and
rerank, the distinct passage texts for multi-query (its score dictionary is
keyed by passage text), and the candidates surviving the 0.3 overlap filter
for semantic-filter. -/
theorem claim_C1_amended (query : String) (chunks : List String) :
    (hybrid_retrieval query chunks).top_chunks = min 5 chunks.length ∧
      (rerank_retrieval query chunks).top_chunks = min 4 chunks.length ∧
      (multi_query_expansion query chunks).top_chunks = min 5 (dedupFirst chunks).length ∧
      (semantic_filtering query chunks).top_chunks =
        min 4 (sem_filtered query chunks).length := by
  refine ⟨?_, ?_, ?_, ?_⟩
  · show (hybrid_top query chunks).length = _
    rw [hybrid_top, take_min_length, length_hybrid_sorted]
  · show (rerank_top query chunks).length = _
    rw [rerank_top, take_min_length, length_rerank_sorted]
  · show (mq_top query chunks).length = _
    rw [mq_top, take_min_length, length_mq_sorted]
  · show (sem_top query chunks).length = _
    rw [sem_top, take_min_length, length_sem_sorted]

/-- Claim C2, counterexample: for the query `"install filter"` and candidates
`["install", "install filter."]`, the top-ranked (first selected) passage of
the rerank strategy is the second candidate, and its diversity score is 1/2,
not 1.0 — diversity is computed against all previously processed candidates,
not only against passages already accepted into the top list. -/
theorem claim_C2_counterexample :
    ((rerank_top "install filter" ["install", "install filter."]).head?.map
        fun e => e.diversity) = some (1 / 2) ∧ ((1 : ℚ) / 2) ≠ 1 := by
  constructor
  · decide
  · decide

/-- Claim C2 as amended: in the rerank strategy the diversity score of the
first **processed** candidate (original index 0) is always 1.0, because
diversity is computed incrementally against the candidates processed before
it (none, for index 0) — not against the already-selected top list and not
against the full candidate set; after sorting, the top-ranked passage's
diversity may be below 1.0. -/
theorem claim_C2_amended (query c : String) (cs : List String) :
    ((rerank_scored query (c :: cs)).head?.map fun e => e.diversity) = some 1 := by
  rw [rerank_scored, rerank_scored_aux]
  obtain ⟨t, ht⟩ := rerank_scored_aux_prefix query cs
    ([] ++ [rerank_entry query c [] 0]) 1
  rw [ht]
  rfl

/-- Claim C3: every passage returned by the semantic-filter strategy has
concept overlap with the query strictly above 0.3 (so never below it), and
the stored `semantic_overlap` is exactly that overlap; the selection is the
filtered list sorted and truncated to 4, so membership in the result implies
survival of the hard filter. -/
theorem claim_C3 (query : String) (chunks : List String) (e : SemChunk)
    (he : e ∈ sem_top query chunks) :
    3 / 10 < calculate_concept_overlap (extract_semantic_concepts query)
        (extract_semantic_concepts e.chunk) ∧
      e.semantic_overlap = calculate_concept_overlap (extract_semantic_concepts query)
        (extract_semantic_concepts e.chunk) := by
  have hmem : e ∈ sem_filtered query chunks := by
    have h1 : e ∈ sem_sorted query chunks := List.take_subset _ _ he
    exact (mem_sortDesc _ _ _).mp h1
  obtain ⟨hlt, heq⟩ := mem_sem_filtered query chunks e hmem
  exact ⟨heq ▸ hlt, heq⟩

/-- Claim C3, witness instance. -/
theorem claim_C3_witness :
    ((⟨"install", 1, ["install"]⟩ : SemChunk) ∈ sem_top "install" ["install"]) ∧
      3 / 10 < calculate_concept_overlap (extract_semantic_concepts "install")
        (extract_semantic_concepts "install") :=
  ⟨by decide, (claim_C3 "install" ["install"] ⟨"install", 1, ["install"]⟩ (by decide)).1⟩

/-- Claim C4: for the query `"How do I install the filter?"` and the three
given candidates under the hybrid strategy, the top-ranked passage is the
first candidate (original index 0), and the result reports
`chunks_analyzed = 3` and `top_chunks = 3`. -/
theorem claim_C4 :
    ((hybrid_sorted "How do I install the filter?"
        ["Step 1: remove cover. Step 2: install filter.",
         "Specifications: voltage 12V, weight 2kg.",
         "Contact support for help."]).head?.map fun c => c.index) = some 0 ∧
      (get_enhanced_context "How do I install the filter?"
        ["Step 1: remove cover. Step 2: install filter.",
         "Specifications: voltage 12V, weight 2kg.",
         "Contact support for help."] "hybrid").chunks_analyzed = 3 ∧
      (get_enhanced_context "How do I install the filter?"
        ["Step 1: remove cover. Step 2: install filter.",
         "Specifications: voltage 12V, weight 2kg.",
         "Contact support for help."] "hybrid").top_chunks = 3 := by
  refine ⟨?_, ?_, ?_⟩
  · decide
  · decide
  · decide

/-- Claim C5: the sort-and-truncate step of every strategy is stable with
respect to the original candidate order.  For hybrid and rerank (whose
entries carry their original index) this is stated directly: equal primary
scores are ranked by increasing original index.  For multi-query and
semantic-filter (whose entries carry no index) it is stated as order
preservation: for every score value, the entries carrying that score appear
in the ranked list in exactly their pre-sort order — which is the
first-occurrence order of the score dictionary (see `mq_build_eq`) and the
original candidate order of the filtered list, respectively. -/
theorem claim_C5 (query : String) (chunks : List String) :
    ((hybrid_sorted query chunks).Pairwise fun a b =>
        a.score = b.score → a.index < b.index) ∧
      ((rerank_sorted query chunks).Pairwise fun a b =>
        a.score = b.score → a.index < b.index) ∧
      (∀ v : ℚ, (mq_sorted query chunks).filter (fun p => decide (p.2.score = v)) =
        (mq_build query chunks).filter fun p => decide (p.2.score = v)) ∧
      (∀ v : ℚ, (sem_sorted query chunks).filter
          (fun e => decide (e.semantic_overlap = v)) =
        (sem_filtered query chunks).filter fun e => decide (e.semantic_overlap = v)) := by
  refine ⟨?_, ?_, ?_, ?_⟩
  · exact (pairwise_sortDesc _ _ _ (pairwise_index_hybrid_scored query chunks)).imp
      fun h => h.2
  · exact (pairwise_sortDesc _ _ _ (pairwise_index_rerank_scored query chunks)).imp
      fun h => h.2
  · intro v
    exact filter_sortDesc _ v _
  · intro v
    exact filter_sortDesc _ v _

/-- Claim C6, counterexample: the text `"?"` is non-empty but tokenizes to an
empty word set, so `similarity("?", "?")` is 0.0, not 1.0 as the claim's
first conjunct requires. -/
theorem claim_C6_counterexample :
    calculate_similarity_score "?" "?" = 0 ∧ ("?" : String) ≠ "" := by
  constructor
  · decide
  · decide

/-- Claim C6 as amended: `similarity(x, x) = 1.0` for every text `x` whose
word set is non-empty; similarity is symmetric for all texts; and it returns
0.0 whenever either argument tokenizes to an empty word set (which includes
some non-empty texts, e.g. `"?"`). -/
theorem claim_C6_amended :
    (∀ x : String, (tokenize x).toFinset ≠ ∅ → calculate_similarity_score x x = 1) ∧
      (∀ x y : String, calculate_similarity_score x y = calculate_similarity_score y x) ∧
      (∀ x y : String, (tokenize x).toFinset = ∅ ∨ (tokenize y).toFinset = ∅ →
        calculate_similarity_score x y = 0) := by
  refine ⟨?_, ?_, ?_⟩
  · intro x hx
    rw [calculate_similarity_score]
    rw [if_neg (by simpa using hx)]
    rw [Finset.inter_self, Finset.union_self]
    exact div_self (Nat.cast_ne_zero.mpr fun h => hx (Finset.card_eq_zero.mp h))
  · intro x y
    rw [calculate_similarity_score, calculate_similarity_score]
    by_cases h1 : (tokenize x).toFinset = ∅ <;> by_cases h2 : (tokenize y).toFinset = ∅ <;>
      simp [h1, h2, Finset.inter_comm, Finset.union_comm]
  · intro x y h
    rw [calculate_similarity_score, if_pos h]

/-- Claim C6, witness instance for the amended theorem's hypotheses. -/
theorem claim_C6_amended_witness :
    (tokenize "install filter").toFinset ≠ ∅ ∧
      calculate_similarity_score "install filter" "install filter" = 1 ∧
      calculate_similarity_score "?" "abc" = 0 :=
  ⟨by decide, claim_C6_amended.1 "install filter" (by decide),
    claim_C6_amended.2.2 "?" "abc" (Or.inl (by decide))⟩

/-- Claim C7: the expanded variant set always contains the original query;
and whenever the lower-cased query contains `"how"`, it also contains the
three strings obtained from the query by replacing `"how"` with
`"what steps"`, `"procedure for"` and `"method to"` (duplicates collapsed by
set semantics). -/
theorem claim_C7 (query : String) :
    query ∈ generate_query_variations query ∧
      (strContains (pyLower query) "how" = true →
        pyReplace query "how" "what steps" ∈ generate_query_variations query ∧
          pyReplace query "how" "procedure for" ∈ generate_query_variations query ∧
          pyReplace query "how" "method to" ∈ generate_query_variations query) := by
  constructor
  · simp only [generate_query_variations, dedupFirst]
    rw [mem_dedupFirstAux]
    simp
  · intro h
    refine ⟨?_, ?_, ?_⟩ <;>
      (simp only [generate_query_variations, dedupFirst]
       rw [mem_dedupFirstAux]
       simp [h])

/-- Claim C7, witness instance for the `"how"` hypothesis. -/
theorem claim_C7_witness :
    strContains (pyLower "how do I install") "how" = true ∧
      pyReplace "how do I install" "how" "what steps" ∈
        generate_query_variations "how do I install" ∧
      pyReplace "how do I install" "how" "procedure for" ∈
        generate_query_variations "how do I install" ∧
      pyReplace "how do I install" "how" "method to" ∈
        generate_query_variations "how do I install" :=
  ⟨by decide, (claim_C7 "how do I install").2 (by decide)⟩

/-- Claim C8: calling `get_enhanced_context` with an empty candidate list
returns, for every query and every strategy name, an empty rendered context,
`top_chunks = 0`, and zero-valued aggregate metrics (the embedding is total,
so no exception is possible). -/
theorem claim_C8 (query strategy : String) :
    (get_enhanced_context query [] strategy).enhanced_context = "" ∧
      (get_enhanced_context query [] strategy).top_chunks = 0 ∧
      extra_metrics_zero (get_enhanced_context query [] strategy).extra := by
  by_cases h : strategy ∈ retrieval_strategy_names
  · simp only [retrieval_strategy_names, List.mem_cons, List.mem_singleton,
      List.not_mem_nil, or_false] at h
    rcases h with rfl | rfl | rfl | rfl
    · exact hybrid_retrieval_nil query
    · exact rerank_retrieval_nil query
    · exact multi_query_expansion_nil query
    · exact semantic_filtering_nil query
  · have heq : get_enhanced_context query [] strategy = hybrid_retrieval query [] := by
      simp only [get_enhanced_context]
      rw [if_neg h]
      simp
    rw [heq]
    exact hybrid_retrieval_nil query

/-- Claim C9: a strategy name outside the four known names makes
`get_enhanced_context` behave exactly as with `"hybrid"` on the same inputs
(and the omitted-name case is the Python default `'hybrid'`, which is the
same call). -/
theorem claim_C9 (query : String) (chunks : List String) (strategy : String)
    (h : strategy ∉ retrieval_strategy_names) :
    get_enhanced_context query chunks strategy =
      get_enhanced_context query chunks "hybrid" := by
  simp only [get_enhanced_context]
  rw [if_neg h]
  rw [if_pos (show ("hybrid" : String) ∈ retrieval_strategy_names by
    simp [retrieval_strategy_names])]

/-- Claim C9, witness instance with the unknown name `"foo"`. -/
theorem claim_C9_witness :
    ("foo" : String) ∉ retrieval_strategy_names ∧
      get_enhanced_context "q" ["a"] "foo" = get_enhanced_context "q" ["a"] "hybrid" :=
  ⟨by decide, claim_C9 "q" ["a"] "foo" (by decide)⟩

/-- Claim C10: the multi-query strategy collapses duplicate candidate texts
before scoring — its rendered context, selection count, and strategy-specific
metrics coincide with those computed from the deduplicated candidate list —
while `chunks_analyzed` still counts every supplied candidate. -/
theorem claim_C10 (query : String) (chunks : List String) :
    (multi_query_expansion query chunks).enhanced_context =
        (multi_query_expansion query (dedupFirst chunks)).enhanced_context ∧
      (multi_query_expansion query chunks).top_chunks =
        (multi_query_expansion query (dedupFirst chunks)).top_chunks ∧
      (multi_query_expansion query chunks).extra =
        (multi_query_expansion query (dedupFirst chunks)).extra ∧
      (multi_query_expansion query chunks).chunks_analyzed = chunks.length := by
  have hs : mq_sorted query chunks = mq_sorted query (dedupFirst chunks) := by
    rw [mq_sorted, mq_sorted, mq_build_eq, mq_build_eq, dedupFirst_idem]
  have ht : mq_top query chunks = mq_top query (dedupFirst chunks) := by
    rw [mq_top, mq_top, hs]
  refine ⟨?_, ?_, ?_, rfl⟩
  · show create_context_with_variations (mq_top query chunks) = _
    rw [ht]
    rfl
  · show (mq_top query chunks).length = _
    rw [ht]
    rfl
  · show ExtraMetrics.multiQuery _ _ = _
    rw [ht]
    rfl

end Claims

end AdvancedRetrieval
